import Mathlib

/-!
Verification of the Availability Reconciliation and Coverage Ranking Engine
of the entreprise-planning repository (Vantage / CoverageIQ).

The development shallowly embeds the relevant program parts:

* the fuzzy identity matcher given as Python in the Slack-sync plan
  (src/unnamed/part_001, section 1f, using difflib.SequenceMatcher);
* the coverage scorer and suggestion ranking of
  src/coverageiq/components/dashboard/SuggestionPanel.tsx
  (getCombinedScore, sortedSuggestions, the render loop);
* the skill-score merge of the planned data_loader.py
  (src/unnamed/part_001, section 12);
* the reconciliation engine (apply pass and expiry sweep).  The backend
  crud.py that implements apply_timeoff_entries and
  restore_expired_slack_ooo is not part of src/, so those two operations
  are modelled from the specification (sections 4.2, 4.3 and 8 of the
  spec) together with the repository frontend contracts
  (src/coverageiq/app/team/loading.tsx types, Settings page copy).

Numbers carried by members, suggestions and scores are modelled as
rationals.  Where a claim is specifically about the exact value produced
by JavaScript double arithmetic, a separate IEEE-754 binary64 rounding
model is used and is marked as such.
-/

set_option maxRecDepth 100000

namespace CoverageIQ

/-! ### Character and string helpers (ASCII fragment of the Python methods)

Names and Slack references in this repository are ASCII, so
Char.toLower-style case mapping and ASCII whitespace are a faithful
model of str.lower and str.strip for the inputs at hand.
-/

/-- ASCII lowercase of one character, as str.lower acts on ASCII input. -/
def lowerChar (c : Char) : Char :=
  if 'A' ≤ c ∧ c ≤ 'Z' then Char.ofNat (c.toNat + 32) else c

/-- Lowercase of a character list. -/
def lowerStr (s : List Char) : List Char := s.map lowerChar

/-- ASCII whitespace, the characters str.strip removes on ASCII input. -/
def isPyWS (c : Char) : Bool :=
  c = ' ' || c = '\t' || c = '\n' || c = '\r' || c = '\x0b' || c = '\x0c'

/-- Model of str.strip: drop whitespace from both ends. -/
def pyStrip (s : List Char) : List Char :=
  ((s.dropWhile isPyWS).reverse.dropWhile isPyWS).reverse

/-- Normalisation of a person reference, from part_001 section 1f:
username.lstrip("@").replace(".", " ").strip().lower().
Python lstrip("@") removes the whole leading run of at-signs. -/
def normalizeReference (s : List Char) : List Char :=
  lowerStr (pyStrip ((s.dropWhile (· = '@')).map (fun c => if c = '.' then ' ' else c)))

/-! ### difflib.SequenceMatcher ratio

Model of difflib.SequenceMatcher(None, a, b).ratio() for inputs without
junk (names are far below the 200-element autojunk threshold).  The
ratio is 2*M/T where M is the total size of the matching blocks and T
the total length.  find_longest_match returns the longest common run;
among equally long runs it prefers the one starting earliest in a and
then earliest in b, which the strict improvement test below reproduces
under the ascending scan order.
-/

/-- Length of the common run of two lists starting at their heads. -/
def commonRunLen : List Char → List Char → Nat
  | a :: as, b :: bs => if a = b then commonRunLen as bs + 1 else 0
  | _, _ => 0

/-- Model of SequenceMatcher.find_longest_match on whole lists: the
start positions and length of the longest matching block, ties resolved
to the earliest start in a and then in b. -/
def findLongestMatch (a b : List Char) : Nat × Nat × Nat :=
  (List.range a.length).foldl (fun best i =>
    (List.range b.length).foldl (fun best j =>
      let k := commonRunLen (a.drop i) (b.drop j)
      if best.2.2 < k then (i, j, k) else best) best) (0, 0, 0)

/-- Total size of the matching blocks, as get_matching_blocks computes
it: take the longest match, then recurse on the parts before and after
it.  The fuel only bounds the recursion depth; every recursive call
strictly decreases the combined length of the two lists (the block has
positive length and lies inside both lists), so with fuel
a.length + b.length + 1 the zero-fuel branch is never reached. -/
def matchingBlocksSizeFuel : Nat → List Char → List Char → Nat
  | 0, _, _ => 0
  | fuel + 1, a, b =>
    let r := findLongestMatch a b
    if r.2.2 = 0 then 0 else
      r.2.2 + matchingBlocksSizeFuel fuel (a.take r.1) (b.take r.2.1)
        + matchingBlocksSizeFuel fuel (a.drop (r.1 + r.2.2)) (b.drop (r.2.1 + r.2.2))

/-- Total matched size M for two character lists. -/
def matchingBlocksSize (a b : List Char) : Nat :=
  matchingBlocksSizeFuel (a.length + b.length + 1) a b

/-- SequenceMatcher.ratio: 2*M/T, and 1 when both sequences are empty.
The value is computed in exact rational arithmetic; the Python float
result only differs from it by a final rounding that cannot cross the
0.75 threshold or merge two distinct ratios of name-sized strings. -/
def seqRatio (a b : List Char) : ℚ :=
  if a.length + b.length = 0 then 1
  else ((2 * matchingBlocksSize a b : ℕ) : ℚ) / ((a.length + b.length : ℕ) : ℚ)

/-! ### Data model (spec section 3, lib/types.ts) -/

/-- Availability status of a member.  The constructor reduced stands for
the in-between status literal of the source (that word is a Lean
keyword). -/
inductive Availability
  | available
  | reduced
  | ooo
deriving DecidableEq

/-- Which writer last set the availability of a member. -/
inductive StatusSource
  | default
  | slack
  | manual
deriving DecidableEq

/-- A roster member.  calendarFreePct corresponds to
dataSources.calendarPct of the frontend TeamMember type; slackOooStart
and slackOooUntil are the Slack-sourced OOO window fields of
lib/types.ts.  Timestamps are integers. -/
structure Member where
  id : String
  name : String
  skills : List String
  availability : Availability
  isOutOfOffice : Bool
  source : StatusSource
  manualOverrideActive : Bool
  slackOooStart : Option Int
  slackOooUntil : Option Int
  calendarFreePct : ℚ
deriving DecidableEq

/-- A structured time-off announcement, the classifier output consumed
by the reconciliation engine. -/
structure StructuredAnnouncement where
  personReference : String
  startDate : Option Int
  endDate : Option Int
  reason : Option String
  coverageReference : Option String
deriving DecidableEq

/-- Audit record of one reconciliation decision (lib/types.ts
MemberOOOChange). -/
structure MemberOOOChange where
  memberId : String
  memberName : String
  personUsername : String
  startDate : Option Int
  endDate : Option Int
  reason : Option String
  coverageBy : Option String
  pending : Bool
deriving DecidableEq

/-- Aggregate result of one sync pass, in the superset shape the spec
adopts (scanned, detected, applied, skipped, changes). -/
structure TimeOffSyncResult where
  scanned : Nat
  detected : Nat
  applied : Nat
  skipped : Nat
  changes : List MemberOOOChange
deriving DecidableEq

/-! ### Identity matcher (part_001 section 1f) -/

/-- Similarity of a reference against one member: the SequenceMatcher
ratio of the normalised reference and the lowercased member name. -/
def memberRatio (ref : String) (m : Member) : ℚ :=
  seqRatio (normalizeReference ref.data) (lowerStr m.name.data)

/-- The best-so-far fold of the matcher loop: scan the items, keeping
the first item whose score strictly exceeds everything seen before. -/
def bestFold {α : Type} (f : α → ℚ) : ℚ → Option α → List α → ℚ × Option α
  | r0, p0, [] => (r0, p0)
  | r0, p0, x :: xs =>
    if r0 < f x then bestFold f (f x) (some x) xs else bestFold f r0 p0 xs

/-- State of the matcher loop over the enumerated roster: best ratio and
best (index, member) pair, starting from ratio 0 and no member. -/
def bestMatchState (ref : String) (ms : List Member) : ℚ × Option (Nat × Member) :=
  bestFold (fun p => memberRatio ref p.2) 0 none ms.enum

/-- The matched (index, member) pair: the best pair when the best ratio
reaches the 0.75 threshold, none otherwise. -/
def bestMatchPair (ref : String) (ms : List Member) : Option (Nat × Member) :=
  let st := bestMatchState ref ms
  if (3 : ℚ)/4 ≤ st.1 then st.2 else none

/-- The matcher _best_member_match of part_001 section 1f: normalise the
reference, compute the SequenceMatcher ratio against every member name,
keep the best member under strict improvement, and return it only when
the best ratio is at least 0.75. -/
def best_member_match (ref : String) (ms : List Member) : Option Member :=
  (bestMatchPair ref ms).map (·.2)

/-- The matcher as the specification describes it (spec section 4.1):
take the highest ratio over the roster; if it is at least 0.75 return
the first member attaining it in roster iteration order, else null. -/
def matchSpec (ref : String) (ms : List Member) : Option Member :=
  let top := ms.foldl (fun r m => max r (memberRatio ref m)) 0
  if (3 : ℚ)/4 ≤ top then ms.find? (fun m => memberRatio ref m = top) else none

/-! ### Reconciliation engine

Modelled from the spec: the backend crud.py carrying
apply_timeoff_entries and restore_expired_slack_ooo is not under src/.
The model follows spec sections 4.2 and 4.3, with the future-activation
behaviour of spec section 8 and the slackOooStart field of
lib/types.ts: a future-dated announcement stores its window without
touching the availability fields, and the periodic sweep activates a
stored window once its start date has arrived.  Counters follow the
SyncResult contract of the spec and the lib/types.ts comments: every
input announcement is already classified time-off (detected), and each
one ends as exactly one of applied or skipped (no roster match, stale
window, or manual override). -/

/-- Temporal state of an announcement relative to now (spec 4.2). -/
inductive TemporalState
  | active
  | future
  | stale
deriving DecidableEq

/-- Classify an announcement: future when the start date is strictly
ahead of now, stale when the window already ended, active otherwise.
A missing start date counts as already started. -/
def temporalState (a : StructuredAnnouncement) (now : Int) : TemporalState :=
  match a.startDate with
  | some s =>
    if now < s then .future
    else match a.endDate with
      | none => .active
      | some e => if e < now then .stale else .active
  | none =>
    match a.endDate with
    | none => .active
    | some e => if e < now then .stale else .active

/-- The change record emitted for one applied announcement. -/
def applyChange (a : StructuredAnnouncement) (m : Member) (pending : Bool) : MemberOOOChange :=
  ⟨m.id, m.name, a.personReference, a.startDate, a.endDate, a.reason,
    a.coverageReference, pending⟩

/-- Member update for an announcement whose window is active now. -/
def applyMemberActive (a : StructuredAnnouncement) (m : Member) : Member :=
  { m with availability := .ooo, isOutOfOffice := true, source := .slack,
           slackOooStart := a.startDate, slackOooUntil := a.endDate }

/-- Member update for a future-dated announcement: store the window and
the source without touching the availability fields. -/
def applyMemberFuture (a : StructuredAnnouncement) (m : Member) : Member :=
  { m with source := .slack, slackOooStart := a.startDate, slackOooUntil := a.endDate }

/-- Process one announcement of the apply pass (spec 4.3): count it as
scanned and detected, then skip it (stale window, no roster match,
manual override) or apply it to the matched member and emit a change
record whose pending flag records a future window. -/
def applyOne (now : Int) (st : TimeOffSyncResult × List Member)
    (a : StructuredAnnouncement) : TimeOffSyncResult × List Member :=
  let res := { st.1 with scanned := st.1.scanned + 1, detected := st.1.detected + 1 }
  let roster := st.2
  if temporalState a now = .stale then
    ({ res with skipped := res.skipped + 1 }, roster)
  else
    match bestMatchPair a.personReference roster with
    | none => ({ res with skipped := res.skipped + 1 }, roster)
    | some (i, m) =>
      if m.manualOverrideActive then
        ({ res with skipped := res.skipped + 1 }, roster)
      else
        let pending := decide (temporalState a now = .future)
        let m2 := if pending then applyMemberFuture a m else applyMemberActive a m
        ({ res with applied := res.applied + 1,
                    changes := res.changes ++ [applyChange a m pending] },
          roster.set i m2)

/-- The empty sync result a pass starts from. -/
def emptySyncResult : TimeOffSyncResult := ⟨0, 0, 0, 0, []⟩

/-- Modelled from the spec: the apply pass applyAnnouncements
(apply_timeoff_entries of the absent crud.py), folding applyOne over
the announcement list. -/
def applyAnnouncements (anns : List StructuredAnnouncement) (roster : List Member)
    (now : Int) : TimeOffSyncResult × List Member :=
  anns.foldl (applyOne now) (emptySyncResult, roster)

/-- A member holds an expired Slack OOO window: Slack end date present
and strictly before now, and no manual override (spec 4.3: manual state
wins even over a stale window). -/
def isExpiredSlackOoo (now : Int) (m : Member) : Bool :=
  !m.manualOverrideActive &&
    (match m.slackOooUntil with
     | some u => decide (u < now)
     | none => false)

/-- A member holds a stored Slack OOO window whose start has arrived and
whose end has not passed, and no manual override: the sweep activates
such a member (spec section 8, Settings page copy). -/
def shouldActivateSlackOoo (now : Int) (m : Member) : Bool :=
  !m.manualOverrideActive && !isExpiredSlackOoo now m &&
    (match m.slackOooStart with
     | some s => decide (s ≤ now)
     | none => false)

/-- One member under the sweep: restore an expired window (clearing the
stored window), activate an arrived window, otherwise leave the member
untouched. -/
def sweepMember (now : Int) (m : Member) : Member :=
  if isExpiredSlackOoo now m then
    { m with availability := .available, isOutOfOffice := false,
             slackOooStart := none, slackOooUntil := none }
  else if shouldActivateSlackOoo now m then
    { m with availability := .ooo, isOutOfOffice := true }
  else m

/-- Modelled from the spec: the expiry sweep restoreExpired
(restore_expired_slack_ooo of the absent crud.py).  Returns the swept
roster and the ids of the members whose expired window was restored. -/
def restoreExpired (roster : List Member) (now : Int) : List Member × List String :=
  (roster.map (sweepMember now), (roster.filter (isExpiredSlackOoo now)).map (·.id))

/-! ### Coverage scorer (SuggestionPanel.tsx) -/

/-- A coverage suggestion as the frontend receives it. -/
structure Suggestion where
  memberId : String
  skillMatchPct : ℚ
  workloadPct : ℚ
  contextReason : String
deriving DecidableEq

/-- A suggestion together with its computed combined score, the shape
built by the map inside sortedSuggestions. -/
structure ScoredSuggestion where
  memberId : String
  skillMatchPct : ℚ
  workloadPct : ℚ
  contextReason : String
  combined : ℚ
deriving DecidableEq

/-- getCombinedScore of SuggestionPanel.tsx, in exact arithmetic:
calendarPct * 0.7 + skillMatchPct * 0.3. -/
def getCombinedScore (skillMatchPct calendarPct : ℚ) : ℚ :=
  calendarPct * (7/10) + skillMatchPct * (3/10)

/-- Score one suggestion: look the member up by id, defaulting the
calendar percentage to 0 when no roster member carries the id, exactly
as the map in sortedSuggestions does. -/
def scoreSuggestion (members : List Member) (s : Suggestion) : ScoredSuggestion :=
  let calPct := ((members.find? (fun m => m.id = s.memberId)).map (·.calendarFreePct)).getD 0
  ⟨s.memberId, s.skillMatchPct, s.workloadPct, s.contextReason,
    getCombinedScore s.skillMatchPct calPct⟩

/-- The scored list before sorting. -/
def scoredSuggestions (suggestions : List Suggestion) (members : List Member) :
    List ScoredSuggestion :=
  suggestions.map (scoreSuggestion members)

/-- Stable descending insertion by combined score: the new element goes
in front of the first element whose score it reaches, so it lands after
every strictly greater score and before every equal one that occurs
later in the input. -/
def insertScoredDesc (x : ScoredSuggestion) : List ScoredSuggestion → List ScoredSuggestion
  | [] => [x]
  | y :: ys => if y.combined ≤ x.combined then x :: y :: ys else y :: insertScoredDesc x ys

/-- Stable sort by descending combined score.  Array.prototype.sort with
the comparator (a, b) => b._combined - a._combined is required by the
language specification to be a stable descending sort, and any stable
sort of the same key order is extensionally this insertion sort. -/
def sortByCombinedDesc : List ScoredSuggestion → List ScoredSuggestion
  | [] => []
  | x :: xs => insertScoredDesc x (sortByCombinedDesc xs)

/-- sortedSuggestions of SuggestionPanel.tsx: score every suggestion,
then sort by combined score descending. -/
def sortedSuggestions (suggestions : List Suggestion) (members : List Member) :
    List ScoredSuggestion :=
  sortByCombinedDesc (scoredSuggestions suggestions members)

/-- The rendered suggestion rows: the render loop looks the member up
again and silently drops the row when the lookup fails. -/
def renderedSuggestionRows (suggestions : List Suggestion) (members : List Member) :
    List (ScoredSuggestion × Member) :=
  (sortedSuggestions suggestions members).filterMap
    (fun s => (members.find? (fun m => m.id = s.memberId)).map (fun m => (s, m)))

/-! ### Skill-score merge (part_001 section 12, data_loader.py) -/

/-- Task priority. -/
inductive Priority
  | P0
  | P1
  | P2
deriving DecidableEq

/-- Task status. -/
inductive TaskStatus
  | atRisk
  | unassigned
  | covered
deriving DecidableEq

/-- A task with its suggestion list. -/
structure Task where
  id : String
  title : String
  priority : Priority
  assigneeId : Option String
  deadline : Int
  projectName : String
  status : TaskStatus
  suggestions : List Suggestion
deriving DecidableEq

/-- One scored entry of skill_scores.json. -/
structure SkillScore where
  skillMatchPct : ℚ
  contextReason : String
deriving DecidableEq

/-- The nested dictionary lookup of load_tasks:
scores.get(task_id, default empty).get(member_id). -/
def lookupScore (scores : List (String × List (String × SkillScore)))
    (taskId memberId : String) : Option SkillScore :=
  match scores.find? (fun t => t.1 = taskId) with
  | none => none
  | some t => (t.2.find? (fun e => e.1 = memberId)).map (·.2)

/-- Merge one suggestion with the external score when one exists; with
no scored entry the suggestion keeps its existing values. -/
def mergeSuggestion (scores : List (String × List (String × SkillScore)))
    (taskId : String) (s : Suggestion) : Suggestion :=
  match lookupScore scores taskId s.memberId with
  | some sc => { s with skillMatchPct := sc.skillMatchPct, contextReason := sc.contextReason }
  | none => s

/-- The per-task merge loop of load_tasks. -/
def mergeTaskScores (scores : List (String × List (String × SkillScore)))
    (t : Task) : Task :=
  { t with suggestions := t.suggestions.map (mergeSuggestion scores t.id) }

/-! ### IEEE-754 binary64 rounding model

Used only where a claim is about the exact value JavaScript double
arithmetic produces.  The model covers positive normal values whose
binary exponent lies in a window that contains every value occurring in
the combined-score computation; round-to-nearest with ties to even is
the required default rounding of both IEEE 754 and JavaScript. -/

/-- Round a rational to an integer, ties to even. -/
def halfEvenRound (x : ℚ) : ℤ :=
  let n := ⌊x⌋
  let frac := x - (n : ℚ)
  if frac < 1/2 then n
  else if 1/2 < frac then n + 1
  else if n % 2 = 0 then n else n + 1

/-- The binary exponent of a positive rational: the unique e with
2 ^ e ≤ q < 2 ^ (e + 1), searched over a window wide enough for every
value this file rounds. -/
def floatExp (q : ℚ) : ℤ :=
  (((List.range 33).map (fun n => (n : ℤ) - 16)).find?
    (fun e => decide ((2 : ℚ) ^ e ≤ q ∧ q < (2 : ℚ) ^ (e + 1)))).getD 0

/-- Round a rational to the nearest IEEE-754 binary64 value (53-bit
significand, ties to even), for the normal range this file uses. -/
def roundToDouble (q : ℚ) : ℚ :=
  if q = 0 then 0
  else
    let s : ℚ := if q < 0 then -1 else 1
    let a := |q|
    let e := floatExp a
    let g : ℚ := (2 : ℚ) ^ (e - 52)
    s * (halfEvenRound (a / g) : ℚ) * g

/-- Double multiplication: exact product, then one rounding. -/
def dmul (x y : ℚ) : ℚ := roundToDouble (x * y)

/-- Double addition: exact sum, then one rounding. -/
def dadd (x y : ℚ) : ℚ := roundToDouble (x + y)

/-- getCombinedScore as JavaScript evaluates it: the literals 0.7 and
0.3 are doubles, each multiplication and the addition round once. -/
def getCombinedScoreDouble (skillMatchPct calendarPct : ℚ) : ℚ :=
  dadd (dmul calendarPct (roundToDouble (7/10))) (dmul skillMatchPct (roundToDouble (3/10)))

/-! ### Concrete fixtures used by witnesses and counterexamples -/

/-- A roster member named Maya Patel, from the fuzzy-match threshold
scenario of the spec. -/
def mayaW : Member :=
  ⟨"mem-002", "Maya Patel", [], .available, false, .default, false, none, none, 50⟩

/-- A roster member named Jordan Lee, from the scoring scenario of the
spec, with 71 percent calendar availability. -/
def jordanW : Member :=
  ⟨"mem-007", "Jordan Lee", [], .available, false, .default, false, none, none, 71⟩

/-- A member whose status was set manually: manualOverrideActive is
true, with a stale Slack end date left behind. -/
def overriddenW : Member :=
  ⟨"mem-010", "Riley Chen", [], .ooo, true, .manual, true, none, some 1, 40⟩

/-- An announcement whose window is active, naming the overridden
member. -/
def annActiveW : StructuredAnnouncement :=
  ⟨"@riley.chen", some 0, some 10, none, none⟩

/-- An open-ended announcement naming Jordan Lee whose start date lies
two days ahead of the witness clock value 5. -/
def annFutureW : StructuredAnnouncement :=
  ⟨"@jordan.lee", some 7, none, some "pto", some "alex"⟩

/-- A suggestion for Jordan Lee with a mock skill-match value of 90. -/
def sugW : Suggestion := ⟨"mem-007", 90, 29, "mock reasoning"⟩

/-- The at-risk task of the scoring scenario, carrying sugW. -/
def taskW : Task :=
  ⟨"task-001", "Auth service migration", .P0, some "mem-003", 100,
    "Platform / Core Auth", .atRisk, [sugW]⟩

/-- A suggestion whose memberId matches no roster member. -/
def sugGhostW : Suggestion := ⟨"mem-404", 80, 10, "ghost"⟩

/-! ### Lemmas about the matcher fold -/

theorem bestFold_fst {α : Type} (f : α → ℚ) (l : List α) :
    ∀ (r0 : ℚ) (p0 : Option α),
      (bestFold f r0 p0 l).1 = l.foldl (fun r x => max r (f x)) r0 := by
  induction l with
  | nil => intro r0 p0; rfl
  | cons x xs ih =>
    intro r0 p0
    simp only [bestFold, List.foldl_cons]
    by_cases h : r0 < f x
    · rw [if_pos h, ih, max_eq_right h.le]
    · rw [if_neg h, ih, max_eq_left (le_of_not_lt h)]

theorem le_foldlMax {α : Type} (f : α → ℚ) (l : List α) :
    ∀ r0 : ℚ, r0 ≤ l.foldl (fun r x => max r (f x)) r0 := by
  induction l with
  | nil => intro r0; exact le_refl r0
  | cons x xs ih =>
    intro r0
    exact le_trans (le_max_left r0 (f x)) (ih (max r0 (f x)))

theorem mem_le_foldlMax {α : Type} (f : α → ℚ) (l : List α) :
    ∀ (r0 : ℚ) (x : α), x ∈ l → f x ≤ l.foldl (fun r y => max r (f y)) r0 := by
  induction l with
  | nil => intro r0 x hx; cases hx
  | cons y ys ih =>
    intro r0 x hx
    rcases List.mem_cons.mp hx with h | h
    · subst h
      exact le_trans (le_max_right r0 (f x)) (le_foldlMax f ys (max r0 (f x)))
    · exact ih (max r0 (f y)) x h

theorem bestFold_of_forall_le {α : Type} (f : α → ℚ) (l : List α) :
    ∀ (r0 : ℚ) (p0 : Option α), (∀ x ∈ l, f x ≤ r0) → bestFold f r0 p0 l = (r0, p0) := by
  induction l with
  | nil => intro r0 p0 _; rfl
  | cons x xs ih =>
    intro r0 p0 h
    simp only [bestFold]
    rw [if_neg (not_lt.mpr (h x (List.mem_cons_self x xs)))]
    exact ih r0 p0 (fun y hy => h y (List.mem_cons_of_mem x hy))

theorem bestFold_snd_find {α : Type} (f : α → ℚ) (l : List α) :
    ∀ (r0 : ℚ) (p0 : Option α) (M : ℚ),
      M = l.foldl (fun r x => max r (f x)) r0 → r0 < M →
      (bestFold f r0 p0 l).2 = l.find? (fun x => f x = M) := by
  induction l with
  | nil =>
    intro r0 p0 M hM h
    rw [List.foldl_nil] at hM
    subst hM
    exact absurd h (lt_irrefl _)
  | cons x xs ih =>
    intro r0 p0 M hM h
    simp only [List.foldl_cons] at hM
    simp only [bestFold]
    by_cases hx : r0 < f x
    · rw [if_pos hx]
      rw [max_eq_right hx.le] at hM
      by_cases hfx : f x = M
      · rw [bestFold_of_forall_le f xs (f x) (some x)
          (fun y hy => hfx ▸ hM ▸ mem_le_foldlMax f xs (f x) y hy)]
        rw [List.find?_cons_of_pos _ (by simp [hfx])]
      · have hlt : f x < M :=
          lt_of_le_of_ne (hM ▸ le_foldlMax f xs (f x)) hfx
        rw [ih (f x) (some x) M hM hlt]
        rw [List.find?_cons_of_neg _ (by simp [hfx])]
    · rw [if_neg hx]
      rw [max_eq_left (le_of_not_lt hx)] at hM
      have hne : f x ≠ M := ne_of_lt (lt_of_le_of_lt (le_of_not_lt hx) h)
      rw [ih r0 p0 M hM h]
      rw [List.find?_cons_of_neg _ (by simp [hne])]

theorem bestFold_snd_mem {α : Type} (f : α → ℚ) (l : List α) :
    ∀ (r0 : ℚ) (p0 : Option α),
      (bestFold f r0 p0 l).2 = p0 ∨ ∃ x ∈ l, (bestFold f r0 p0 l).2 = some x := by
  induction l with
  | nil => intro r0 p0; exact Or.inl rfl
  | cons x xs ih =>
    intro r0 p0
    simp only [bestFold]
    by_cases h : r0 < f x
    · rw [if_pos h]
      rcases ih (f x) (some x) with h1 | ⟨y, hy, h2⟩
      · exact Or.inr ⟨x, List.mem_cons_self x xs, h1⟩
      · exact Or.inr ⟨y, List.mem_cons_of_mem x hy, h2⟩
    · rw [if_neg h]
      rcases ih r0 p0 with h1 | ⟨y, hy, h2⟩
      · exact Or.inl h1
      · exact Or.inr ⟨y, List.mem_cons_of_mem x hy, h2⟩

theorem find?_enumFrom_map {α : Type} (p : α → Bool) :
    ∀ (l : List α) (n : Nat),
      ((List.enumFrom n l).find? (fun q => p q.2)).map (·.2) = l.find? p := by
  intro l
  induction l with
  | nil => intro n; rfl
  | cons x xs ih =>
    intro n
    rw [List.enumFrom_cons]
    by_cases h : p x
    · rw [List.find?_cons_of_pos _ (by simpa using h),
        List.find?_cons_of_pos _ h, Option.map_some']
    · rw [List.find?_cons_of_neg _ (by simpa using h),
        List.find?_cons_of_neg _ h]
      exact ih (n + 1)

theorem foldlMax_enum {α : Type} (f : α → ℚ) (l : List α) (r0 : ℚ) :
    l.enum.foldl (fun r p => max r (f p.2)) r0 = l.foldl (fun r x => max r (f x)) r0 := by
  conv_rhs => rw [← List.enumFrom_map_snd 0 l, List.foldl_map]
  rfl

theorem bestMatchPair_getElem {ref : String} {ms : List Member} {i : Nat} {m : Member}
    (h : bestMatchPair ref ms = some (i, m)) : ms[i]? = some m := by
  unfold bestMatchPair bestMatchState at h
  by_cases hth : (3 : ℚ)/4 ≤ (bestFold (fun p => memberRatio ref p.2) 0 none ms.enum).1
  · rw [if_pos hth] at h
    rcases bestFold_snd_mem (fun p => memberRatio ref p.2) ms.enum 0 none with h1 | ⟨y, hy, h2⟩
    · rw [h1] at h; cases h
    · rw [h2] at h
      cases h
      exact List.mem_enum_iff_getElem?.mp hy
  · rw [if_neg hth] at h; cases h

/-! ### C3 and C6: identity matcher -/

theorem bestFold_enum_spec {α : Type} (g : α → ℚ) (l : List α) (t : ℚ) (ht : 0 < t) :
    Option.map (fun x => x.2)
      (if t ≤ (bestFold (fun p => g p.2) 0 none l.enum).1
        then (bestFold (fun p => g p.2) 0 none l.enum).2 else none)
    = (if t ≤ l.foldl (fun r x => max r (g x)) 0
        then l.find? (fun x => g x = l.foldl (fun r y => max r (g y)) 0) else none) := by
  have hfold : (bestFold (fun p => g p.2) 0 none l.enum).1
      = l.foldl (fun r x => max r (g x)) 0 := by
    rw [bestFold_fst]
    exact foldlMax_enum g l 0
  by_cases hth : t ≤ l.foldl (fun r x => max r (g x)) 0
  · rw [hfold, if_pos hth, if_pos hth]
    rw [bestFold_snd_find (fun p => g p.2) l.enum 0 none
      (l.foldl (fun r x => max r (g x)) 0)
      (foldlMax_enum g l 0).symm (lt_of_lt_of_le ht hth)]
    rw [List.enum_eq_enumFrom]
    exact find?_enumFrom_map (fun x => g x = l.foldl (fun r y => max r (g y)) 0) l 0
  · rw [hfold, if_neg hth, if_neg hth, Option.map_none']

/-- C3: for every reference string and roster, the matcher rates every
member by the sequence-similarity ratio of the normalised reference
(the leading run of at-signs dropped, as Python lstrip does, dots
replaced by spaces, trimmed, lowercased) against the lowercased member
name, and returns exactly what the specification describes: the member
with the highest ratio when that ratio reaches 0.75, otherwise none,
ties resolved to the first such member in roster iteration order. -/
theorem best_member_match_eq_matchSpec (ref : String) (ms : List Member) :
    best_member_match ref ms = matchSpec ref ms :=
  bestFold_enum_spec (memberRatio ref) ms ((3 : ℚ)/4) (by norm_num)

/-! ### Lemmas about the stable descending insertion sort -/

theorem insertScoredDesc_perm (x : ScoredSuggestion) (l : List ScoredSuggestion) :
    (insertScoredDesc x l).Perm (x :: l) := by
  induction l with
  | nil => exact List.Perm.refl _
  | cons y ys ih =>
    simp only [insertScoredDesc]
    by_cases h : y.combined ≤ x.combined
    · rw [if_pos h]
    · rw [if_neg h]
      exact (ih.cons y).trans (List.Perm.swap x y ys)

theorem insertScoredDesc_sorted (x : ScoredSuggestion) (l : List ScoredSuggestion)
    (h : l.Pairwise (fun a b => b.combined ≤ a.combined)) :
    (insertScoredDesc x l).Pairwise (fun a b => b.combined ≤ a.combined) := by
  induction l with
  | nil => exact List.pairwise_singleton _ x
  | cons y ys ih =>
    rcases List.pairwise_cons.mp h with ⟨hy, hys⟩
    simp only [insertScoredDesc]
    by_cases hc : y.combined ≤ x.combined
    · rw [if_pos hc]
      refine List.pairwise_cons.mpr ⟨?_, h⟩
      intro z hz
      rcases List.mem_cons.mp hz with h1 | h1
      · exact h1 ▸ hc
      · exact le_trans (hy z h1) hc
    · rw [if_neg hc]
      refine List.pairwise_cons.mpr ⟨?_, ih hys⟩
      intro z hz
      rcases List.mem_cons.mp ((insertScoredDesc_perm x ys).mem_iff.mp hz) with h1 | h1
      · exact h1 ▸ le_of_lt (lt_of_not_le hc)
      · exact hy z h1

theorem insertScoredDesc_filter (x : ScoredSuggestion) (l : List ScoredSuggestion) (q : ℚ) :
    (insertScoredDesc x l).filter (fun s => s.combined = q)
      = if x.combined = q
        then x :: l.filter (fun s => s.combined = q)
        else l.filter (fun s => s.combined = q) := by
  induction l with
  | nil =>
    simp only [insertScoredDesc, List.filter]
    by_cases h : x.combined = q
    · rw [if_pos h]; simp [h]
    · rw [if_neg h]; simp [h]
  | cons y ys ih =>
    simp only [insertScoredDesc]
    by_cases hc : y.combined ≤ x.combined
    · rw [if_pos hc]
      by_cases hx : x.combined = q
      · rw [if_pos hx]
        rw [List.filter_cons_of_pos (by simp [hx])]
      · rw [if_neg hx]
        rw [List.filter_cons_of_neg (by simp [hx])]
    · rw [if_neg hc]
      have hyq : y.combined ≤ x.combined ∨ (x.combined < y.combined) := by
        exact Or.inr (lt_of_not_le hc)
      by_cases hx : x.combined = q
      · have hyne : ¬(y.combined = q) := by
          intro hyq2
          exact hc (le_of_eq (hyq2.trans hx.symm))
        rw [if_pos hx]
        rw [List.filter_cons_of_neg (by simp [hyne]), ih, if_pos hx,
          List.filter_cons_of_neg (by simp [hyne])]
      · rw [if_neg hx]
        by_cases hy2 : y.combined = q
        · rw [List.filter_cons_of_pos (by simp [hy2]), ih, if_neg hx,
            List.filter_cons_of_pos (by simp [hy2])]
        · rw [List.filter_cons_of_neg (by simp [hy2]), ih, if_neg hx,
            List.filter_cons_of_neg (by simp [hy2])]

theorem sortByCombinedDesc_perm (l : List ScoredSuggestion) :
    (sortByCombinedDesc l).Perm l := by
  induction l with
  | nil => exact List.Perm.refl _
  | cons x xs ih =>
    exact (insertScoredDesc_perm x (sortByCombinedDesc xs)).trans (ih.cons x)

theorem sortByCombinedDesc_sorted (l : List ScoredSuggestion) :
    (sortByCombinedDesc l).Pairwise (fun a b => b.combined ≤ a.combined) := by
  induction l with
  | nil => exact List.Pairwise.nil
  | cons x xs ih => exact insertScoredDesc_sorted x (sortByCombinedDesc xs) ih

theorem sortByCombinedDesc_filter (l : List ScoredSuggestion) (q : ℚ) :
    (sortByCombinedDesc l).filter (fun s => s.combined = q)
      = l.filter (fun s => s.combined = q) := by
  induction l with
  | nil => rfl
  | cons x xs ih =>
    simp only [sortByCombinedDesc]
    rw [insertScoredDesc_filter]
    by_cases hx : x.combined = q
    · rw [if_pos hx, ih, List.filter_cons_of_pos (by simp [hx])]
    · rw [if_neg hx, ih, List.filter_cons_of_neg (by simp [hx])]

/-! ### C7: ranking is a stable descending sort -/

/-- C7: the ranked suggestion list is exactly the scored input sorted
by combined score in descending order, it is a permutation of the
scored input, and the sort is stable: for every score value, the
sublist of entries carrying that value is unchanged, so entries with
equal combined scores keep their input order. -/
theorem sortedSuggestions_sorted_stable (suggestions : List Suggestion)
    (members : List Member) :
    (sortedSuggestions suggestions members).Pairwise (fun a b => b.combined ≤ a.combined)
    ∧ (sortedSuggestions suggestions members).Perm (scoredSuggestions suggestions members)
    ∧ ∀ q : ℚ,
        (sortedSuggestions suggestions members).filter (fun s => s.combined = q)
          = (scoredSuggestions suggestions members).filter (fun s => s.combined = q) :=
  ⟨sortByCombinedDesc_sorted _, sortByCombinedDesc_perm _,
    fun q => sortByCombinedDesc_filter _ q⟩

/-! ### C9 and C10: missing scores and unknown members -/

/-- C9, amended: when the external scorer supplies no entry for a
(task, member) pair, the merge keeps the pre-existing skillMatchPct of
the suggestion (the mock value) rather than zero, no error occurs, and
the pair still appears in the ranked output with that kept value. -/
theorem missing_skill_score_fallback (scores : List (String × List (String × SkillScore)))
    (t : Task) (s : Suggestion) (members : List Member)
    (hmem : s ∈ t.suggestions) (hnone : lookupScore scores t.id s.memberId = none) :
    s ∈ (mergeTaskScores scores t).suggestions
    ∧ (scoreSuggestion members s).skillMatchPct = s.skillMatchPct
    ∧ scoreSuggestion members s
        ∈ sortedSuggestions (mergeTaskScores scores t).suggestions members := by
  have hs : mergeSuggestion scores t.id s = s := by
    unfold mergeSuggestion
    rw [hnone]
  have hmem2 : s ∈ (mergeTaskScores scores t).suggestions := by
    show s ∈ t.suggestions.map (mergeSuggestion scores t.id)
    have := List.mem_map_of_mem (mergeSuggestion scores t.id) hmem
    rwa [hs] at this
  refine ⟨hmem2, rfl, ?_⟩
  exact (sortByCombinedDesc_perm _).mem_iff.mpr
    (List.mem_map_of_mem (scoreSuggestion members) hmem2)

/-- C10: a suggestion whose memberId matches no roster member is still
scored, with its calendar percentage defaulted to 0, and still takes
part in the sorted list, but the render loop silently omits it: no
rendered row carries its memberId. -/
theorem unknown_member_suggestion (suggestions : List Suggestion) (members : List Member)
    (s : Suggestion) (hmem : s ∈ suggestions)
    (hnone : members.find? (fun m => m.id = s.memberId) = none) :
    (scoreSuggestion members s).combined = getCombinedScore s.skillMatchPct 0
    ∧ scoreSuggestion members s ∈ sortedSuggestions suggestions members
    ∧ ∀ r ∈ renderedSuggestionRows suggestions members, r.1.memberId ≠ s.memberId := by
  refine ⟨?_, ?_, ?_⟩
  · unfold scoreSuggestion
    rw [hnone]
    rfl
  · exact (sortByCombinedDesc_perm _).mem_iff.mpr
      (List.mem_map_of_mem (scoreSuggestion members) hmem)
  · intro r hr hid
    unfold renderedSuggestionRows at hr
    rcases List.mem_filterMap.mp hr with ⟨e, _, hmap⟩
    rcases Option.map_eq_some'.mp hmap with ⟨mr, hfind, hrEq⟩
    rw [← hrEq] at hid
    rw [hid] at hfind
    rw [hnone] at hfind
    cases hfind

/-! ### Lemmas about the reconciliation engine -/

theorem set_self_of_getElem? {α : Type} :
    ∀ (l : List α) (i : Nat) (x : α), l[i]? = some x → l.set i x = l := by
  intro l
  induction l with
  | nil => intro i x h; simp at h
  | cons y ys ih =>
    intro i x h
    cases i with
    | zero =>
      simp only [List.getElem?_cons_zero, Option.some_inj] at h
      rw [← h]
      rfl
    | succ n =>
      simp only [List.getElem?_cons_succ] at h
      show y :: ys.set n x = y :: ys
      rw [ih n x h]

theorem applyOne_counters (now : Int) (st : TimeOffSyncResult × List Member)
    (a : StructuredAnnouncement) :
    (applyOne now st a).1.scanned = st.1.scanned + 1
    ∧ (applyOne now st a).1.detected = st.1.detected + 1
    ∧ (applyOne now st a).1.applied + (applyOne now st a).1.skipped
        = st.1.applied + st.1.skipped + 1
    ∧ (applyOne now st a).1.applied ≤ st.1.applied + 1 := by
  unfold applyOne
  dsimp only
  split
  · refine ⟨rfl, rfl, ?_, ?_⟩ <;> dsimp only <;> omega
  · split
    · refine ⟨rfl, rfl, ?_, ?_⟩ <;> dsimp only <;> omega
    · split
      · refine ⟨rfl, rfl, ?_, ?_⟩ <;> dsimp only <;> omega
      · refine ⟨rfl, rfl, ?_, ?_⟩ <;> dsimp only <;> omega

theorem applyAnnouncements_fold_counters (now : Int) :
    ∀ (anns : List StructuredAnnouncement) (st : TimeOffSyncResult × List Member),
      (anns.foldl (applyOne now) st).1.scanned = st.1.scanned + anns.length
      ∧ (anns.foldl (applyOne now) st).1.detected = st.1.detected + anns.length
      ∧ (anns.foldl (applyOne now) st).1.applied + (anns.foldl (applyOne now) st).1.skipped
          = st.1.applied + st.1.skipped + anns.length
      ∧ (anns.foldl (applyOne now) st).1.applied ≤ st.1.applied + anns.length := by
  intro anns
  induction anns with
  | nil => intro st; simp
  | cons a as ih =>
    intro st
    rw [List.foldl_cons]
    rcases ih (applyOne now st a) with ⟨h1, h2, h3, h4⟩
    rcases applyOne_counters now st a with ⟨g1, g2, g3, g4⟩
    refine ⟨?_, ?_, ?_, ?_⟩ <;> simp only [List.length_cons] <;> omega

theorem applyOne_preserves_override (now : Int) (st : TimeOffSyncResult × List Member)
    (a : StructuredAnnouncement) (p : Nat) (x : Member)
    (hx : st.2[p]? = some x) (hov : x.manualOverrideActive = true) :
    (applyOne now st a).2[p]? = some x := by
  unfold applyOne
  dsimp only
  split
  · exact hx
  · split
    · exact hx
    · rename_i i m hbm
      split
      · exact hx
      · rename_i hovm
        have hm := bestMatchPair_getElem hbm
        have hne : i ≠ p := by
          intro he
          subst he
          rw [hm] at hx
          cases hx
          exact hovm hov
        show (st.2.set i _)[p]? = some x
        rw [List.getElem?_set_ne hne]
        exact hx

theorem applyAnnouncements_preserves_override (now : Int) :
    ∀ (anns : List StructuredAnnouncement) (st : TimeOffSyncResult × List Member)
      (p : Nat) (x : Member),
      st.2[p]? = some x → x.manualOverrideActive = true →
      (anns.foldl (applyOne now) st).2[p]? = some x := by
  intro anns
  induction anns with
  | nil => intro st p x hx _; exact hx
  | cons a as ih =>
    intro st p x hx hov
    rw [List.foldl_cons]
    exact ih (applyOne now st a) p x (applyOne_preserves_override now st a p x hx hov) hov

theorem sweepMember_override (now : Int) (x : Member)
    (hov : x.manualOverrideActive = true) : sweepMember now x = x := by
  unfold sweepMember isExpiredSlackOoo shouldActivateSlackOoo
  rw [hov]
  simp

theorem sweepMember_not_expired (now : Int) (m : Member) :
    isExpiredSlackOoo now (sweepMember now m) = false := by
  by_cases h1 : isExpiredSlackOoo now m = true
  · have hr : sweepMember now m
        = { m with availability := .available, isOutOfOffice := false,
                   slackOooStart := none, slackOooUntil := none } := by
      unfold sweepMember
      rw [if_pos h1]
    rw [hr]
    simp [isExpiredSlackOoo]
  · simp only [Bool.not_eq_true] at h1
    by_cases h2 : shouldActivateSlackOoo now m = true
    · have hr : sweepMember now m = { m with availability := .ooo, isOutOfOffice := true } := by
        unfold sweepMember
        rw [h1, if_neg (by simp), if_pos h2]
      rw [hr]
      unfold isExpiredSlackOoo at h1 ⊢
      exact h1
    · have hr : sweepMember now m = m := by
        unfold sweepMember
        rw [h1, if_neg (by simp), if_neg h2]
      rw [hr]
      exact h1

theorem sweepMember_idem (now : Int) (m : Member) :
    sweepMember now (sweepMember now m) = sweepMember now m := by
  by_cases h1 : isExpiredSlackOoo now m = true
  · have hr : sweepMember now m
        = { m with availability := .available, isOutOfOffice := false,
                   slackOooStart := none, slackOooUntil := none } := by
      unfold sweepMember
      rw [if_pos h1]
    rw [hr]
    unfold sweepMember
    simp [isExpiredSlackOoo, shouldActivateSlackOoo]
  · simp only [Bool.not_eq_true] at h1
    by_cases h2 : shouldActivateSlackOoo now m = true
    · have hr : sweepMember now m = { m with availability := .ooo, isOutOfOffice := true } := by
        unfold sweepMember
        rw [h1, if_neg (by simp), if_pos h2]
      rw [hr]
      have e1 : isExpiredSlackOoo now (Member.mk m.id m.name m.skills Availability.ooo true m.source m.manualOverrideActive m.slackOooStart m.slackOooUntil m.calendarFreePct) = false := by
        unfold isExpiredSlackOoo at h1 ⊢
        exact h1
      have e2 : shouldActivateSlackOoo now (Member.mk m.id m.name m.skills Availability.ooo true m.source m.manualOverrideActive m.slackOooStart m.slackOooUntil m.calendarFreePct) = true := by
        unfold shouldActivateSlackOoo isExpiredSlackOoo at h2 ⊢
        exact h2
      unfold sweepMember
      rw [e1, if_neg (by simp), e2, if_pos rfl]
    · have hr : sweepMember now m = m := by
        unfold sweepMember
        rw [h1, if_neg (by simp), if_neg h2]
      rw [hr]
      exact hr

/-! ### C1: manual override wins over every automated pass -/

/-- C1: a member whose manualOverrideActive flag is set is returned
unchanged, as a whole record (hence in particular availability,
isOutOfOffice and slackOooUntil), by every apply pass over any
announcement list and any clock value, and by every expiry sweep. -/
theorem override_never_modified (anns : List StructuredAnnouncement) (roster : List Member)
    (now : Int) (p : Nat) (x : Member)
    (hx : roster[p]? = some x) (hov : x.manualOverrideActive = true) :
    (applyAnnouncements anns roster now).2[p]? = some x
    ∧ (restoreExpired roster now).1[p]? = some x := by
  constructor
  · exact applyAnnouncements_preserves_override now anns (emptySyncResult, roster) p x hx hov
  · show (roster.map (sweepMember now))[p]? = some x
    rw [List.getElem?_map, hx, Option.map_some', sweepMember_override now x hov]

/-! ### C4: counter consistency of the sync pass -/

/-- C4: every sync pass returns counters with scanned equal to the
input announcement count, scanned at least detected, detected at least
applied, and applied plus skipped equal to detected. -/
theorem applyAnnouncements_counter_consistency (anns : List StructuredAnnouncement)
    (roster : List Member) (now : Int) :
    (applyAnnouncements anns roster now).1.scanned = anns.length
    ∧ (applyAnnouncements anns roster now).1.detected
        ≤ (applyAnnouncements anns roster now).1.scanned
    ∧ (applyAnnouncements anns roster now).1.applied
        ≤ (applyAnnouncements anns roster now).1.detected
    ∧ (applyAnnouncements anns roster now).1.applied
          + (applyAnnouncements anns roster now).1.skipped
        = (applyAnnouncements anns roster now).1.detected := by
  have h := applyAnnouncements_fold_counters now anns (emptySyncResult, roster)
  rcases h with ⟨h1, h2, h3, h4⟩
  have e0 : (emptySyncResult, roster).1.scanned = 0 := rfl
  have e1 : (emptySyncResult, roster).1.detected = 0 := rfl
  have e2 : (emptySyncResult, roster).1.applied = 0 := rfl
  have e3 : (emptySyncResult, roster).1.skipped = 0 := rfl
  rw [e0] at h1
  rw [e1] at h2
  rw [e2, e3] at h3
  rw [e2] at h4
  unfold applyAnnouncements
  refine ⟨by omega, by omega, by omega, by omega⟩

/-! ### C8: the expiry sweep is idempotent -/

/-- C8: running the sweep a second time at the same clock value leaves
the roster exactly as after the first run and restores no members. -/
theorem restoreExpired_idempotent (roster : List Member) (now : Int) :
    restoreExpired (restoreExpired roster now).1 now = ((restoreExpired roster now).1, []) := by
  unfold restoreExpired
  simp only [Prod.mk.injEq]
  constructor
  · rw [List.map_map]
    exact List.map_congr_left (fun x _ => sweepMember_idem now x)
  · have hfil : (roster.map (sweepMember now)).filter (isExpiredSlackOoo now) = [] := by
      rw [List.filter_eq_nil_iff]
      intro a ha
      rcases List.mem_map.mp ha with ⟨y, _, hy⟩
      rw [← hy]
      simp [sweepMember_not_expired now y]
    rw [hfil]
    rfl

/-! ### C5: future announcements are pending, then activate -/

/-- C5: applying an announcement whose start date lies strictly in the
future (and with no end date) emits exactly one change record with
pending true, leaves the isOutOfOffice and availability of every
roster member unchanged, and a later sweep run at or after the start
date turns the matched member OOO. -/
theorem future_announcement_pending_then_activates
    (roster : List Member) (now now' s : Int) (a : StructuredAnnouncement)
    (i : Nat) (m : Member)
    (hs : a.startDate = some s) (hfut : now < s) (hend : a.endDate = none)
    (hmatch : bestMatchPair a.personReference roster = some (i, m))
    (hov : m.manualOverrideActive = false) (hact : s ≤ now') :
    ((applyAnnouncements [a] roster now).1.changes.map (fun c => c.pending) = [true])
    ∧ ((applyAnnouncements [a] roster now).2.map (fun x => x.isOutOfOffice)
        = roster.map (fun x => x.isOutOfOffice))
    ∧ ((applyAnnouncements [a] roster now).2.map (fun x => x.availability)
        = roster.map (fun x => x.availability))
    ∧ (((restoreExpired (applyAnnouncements [a] roster now).2 now').1[i]?).map
        (fun x => (x.availability, x.isOutOfOffice))
      = some (Availability.ooo, true)) := by
  have hts : temporalState a now = .future := by
    simp only [temporalState, hs]
    rw [if_pos hfut]
  have hkey : applyAnnouncements [a] roster now
      = ({ scanned := 1, detected := 1, applied := 1, skipped := 0,
            changes := [applyChange a m true] },
          roster.set i (applyMemberFuture a m)) := by
    unfold applyAnnouncements
    rw [List.foldl_cons, List.foldl_nil]
    unfold applyOne
    dsimp only
    rw [hts, hmatch]
    simp [hov, emptySyncResult]
  have hm := bestMatchPair_getElem hmatch
  have hi : i < roster.length := (List.getElem?_eq_some_iff.mp hm).1
  rw [hkey]
  refine ⟨rfl, ?_, ?_, ?_⟩
  · dsimp only
    rw [List.map_set]
    have : (applyMemberFuture a m).isOutOfOffice = m.isOutOfOffice := rfl
    rw [this]
    refine set_self_of_getElem? _ i _ ?_
    rw [List.getElem?_map, hm, Option.map_some']
  · dsimp only
    rw [List.map_set]
    have : (applyMemberFuture a m).availability = m.availability := rfl
    rw [this]
    refine set_self_of_getElem? _ i _ ?_
    rw [List.getElem?_map, hm, Option.map_some']
  · show (((roster.set i (applyMemberFuture a m)).map (sweepMember now'))[i]?).map _ = _
    rw [List.getElem?_map, List.getElem?_set_self hi, Option.map_some']
    have he : isExpiredSlackOoo now' (applyMemberFuture a m) = false := by
      unfold isExpiredSlackOoo applyMemberFuture
      simp [hend, hov]
    have ha : shouldActivateSlackOoo now' (applyMemberFuture a m) = true := by
      unfold shouldActivateSlackOoo applyMemberFuture isExpiredSlackOoo
      simp [hend, hov, hs, hact]
    have hsw : sweepMember now' (applyMemberFuture a m)
        = { applyMemberFuture a m with availability := .ooo, isOutOfOffice := true } := by
      unfold sweepMember
      rw [he, if_neg (by simp), ha, if_pos rfl]
    rw [hsw]
    rfl

/-! ### Concrete evaluations

The Batteries rational arithmetic definitions are irreducible, which
blocks evaluation of the decidable instances the concrete statements
below rely on; restoring the ordinary reducibility inside this section
lets the kernel compute with exact rationals.  The section holds every
theorem whose proof evaluates the embedded program on explicit
inputs. -/

section ConcreteEvaluations

set_option allowUnsafeReducibility true
attribute [local semireducible] Rat.mul Rat.add Rat.sub Rat.inv

/-- C6, counterexample: the claim expects match("maya") to return the
member named Maya Patel, but the SequenceMatcher ratio of "maya"
against "maya patel" is 4/7, below the 0.75 threshold, so the matcher
returns none. -/
theorem best_member_match_maya_cex : best_member_match "maya" [mayaW] = none := by decide

/-- C6, amended: match("maya") returns none on a roster containing Maya
Patel, because the ratio is 4/7 which is below 0.75; match("zzz")
returns none as claimed. -/
theorem best_member_match_maya_zzz_amended :
    best_member_match "maya" [mayaW] = none
    ∧ seqRatio (normalizeReference "maya".data) (lowerStr "Maya Patel".data) = 4/7
    ∧ ((4 : ℚ)/7 < 3/4)
    ∧ best_member_match "zzz" [mayaW] = none := by
  refine ⟨by decide, by decide, by decide, by decide⟩

/-- C2, counterexample: evaluated in IEEE-754 binary64 arithmetic, as
JavaScript evaluates getCombinedScore, the combined score of
skillMatchPct 90 and calendarPct 71 is not exactly 76.7: the double
result is 76.69999999999999, one unit in the last place below the
double nearest 76.7. -/
theorem combined_score_double_cex : getCombinedScoreDouble 90 71 ≠ 767/10 := by decide

/-- C2, amended: getCombinedScore computes calendarPct * 0.7 +
skillMatchPct * 0.3, which in exact arithmetic equals 76.7 at
(90, 71); the double evaluation the code performs yields
5397282678426828 / 2 ^ 46 = 76.69999999999999, within 10 ^ -12 of 76.7
but not exactly equal to it. -/
theorem combined_score_double_amended :
    getCombinedScore 90 71 = 767/10
    ∧ getCombinedScoreDouble 90 71 = 5397282678426828/70368744177664
    ∧ getCombinedScoreDouble 90 71 ≠ 767/10
    ∧ |(767 : ℚ)/10 - getCombinedScoreDouble 90 71| < 1/10^12 :=
  ⟨by decide, by decide, by decide, by decide⟩

/-- C1, witness: a concrete overridden member is untouched by an apply
pass over an announcement that names them with an active window, and by
the sweep, at clock value 5. -/
theorem override_never_modified_witness :
    ([overriddenW][0]? = some overriddenW)
    ∧ overriddenW.manualOverrideActive = true
    ∧ (applyAnnouncements [annActiveW] [overriddenW] 5).2[0]? = some overriddenW
    ∧ (restoreExpired [overriddenW] 5).1[0]? = some overriddenW :=
  ⟨rfl, rfl,
    (override_never_modified [annActiveW] [overriddenW] 5 0 overriddenW rfl rfl).1,
    (override_never_modified [annActiveW] [overriddenW] 5 0 overriddenW rfl rfl).2⟩

/-- C5, witness: the open-ended announcement for Jordan Lee with start
date 7, applied at clock 5, emits one pending change and leaves the
member not OOO; the sweep at clock 7 turns the member OOO. -/
theorem future_announcement_witness :
    annFutureW.startDate = some 7
    ∧ ((5 : ℤ) < 7)
    ∧ annFutureW.endDate = none
    ∧ bestMatchPair annFutureW.personReference [jordanW] = some (0, jordanW)
    ∧ jordanW.manualOverrideActive = false
    ∧ ((7 : ℤ) ≤ 7)
    ∧ (((applyAnnouncements [annFutureW] [jordanW] 5).1.changes.map (fun c => c.pending)
          = [true])
       ∧ ((applyAnnouncements [annFutureW] [jordanW] 5).2.map (fun x => x.isOutOfOffice)
          = [jordanW].map (fun x => x.isOutOfOffice))
       ∧ ((applyAnnouncements [annFutureW] [jordanW] 5).2.map (fun x => x.availability)
          = [jordanW].map (fun x => x.availability))
       ∧ (((restoreExpired (applyAnnouncements [annFutureW] [jordanW] 5).2 7).1[0]?).map
            (fun x => (x.availability, x.isOutOfOffice))
          = some (Availability.ooo, true))) :=
  ⟨rfl, by decide, rfl, by decide, rfl, by decide,
    future_announcement_pending_then_activates [jordanW] 5 7 7 annFutureW 0 jordanW
      rfl (by decide) rfl (by decide) rfl (by decide)⟩

/-- C9, counterexample: with an empty external score store, the ranked
output for the scenario task keeps the mock skill value 90 and scores
the pair 76.7, not the 49.7 that skillMatchPct = 0 would give: a
missing external score is not treated as 0. -/
theorem missing_skill_score_zero_cex :
    lookupScore [] taskW.id sugW.memberId = none
    ∧ (sortedSuggestions (mergeTaskScores [] taskW).suggestions [jordanW]).map
        (fun s => s.combined) = [getCombinedScore 90 71]
    ∧ getCombinedScore 90 71 ≠ getCombinedScore 0 71 :=
  ⟨rfl, by decide, by decide⟩

/-- C9, witness for the amended claim, at the scenario task with an
empty score store. -/
theorem missing_skill_score_fallback_witness :
    (sugW ∈ taskW.suggestions)
    ∧ lookupScore [] taskW.id sugW.memberId = none
    ∧ (sugW ∈ (mergeTaskScores [] taskW).suggestions
       ∧ (scoreSuggestion [jordanW] sugW).skillMatchPct = sugW.skillMatchPct
       ∧ scoreSuggestion [jordanW] sugW
           ∈ sortedSuggestions (mergeTaskScores [] taskW).suggestions [jordanW]) :=
  ⟨by decide, rfl, missing_skill_score_fallback [] taskW sugW [jordanW] (by decide) rfl⟩

/-- C10, witness: a suggestion with the unknown id mem-404 is scored
with calendar percentage 0 and sorted, and no rendered row carries its
id. -/
theorem unknown_member_suggestion_witness :
    (sugGhostW ∈ [sugGhostW])
    ∧ ([jordanW].find? (fun m => m.id = sugGhostW.memberId) = none)
    ∧ ((scoreSuggestion [jordanW] sugGhostW).combined
          = getCombinedScore sugGhostW.skillMatchPct 0
       ∧ scoreSuggestion [jordanW] sugGhostW ∈ sortedSuggestions [sugGhostW] [jordanW]
       ∧ ∀ r ∈ renderedSuggestionRows [sugGhostW] [jordanW],
           r.1.memberId ≠ sugGhostW.memberId) :=
  ⟨by decide, by decide,
    unknown_member_suggestion [sugGhostW] [jordanW] sugGhostW (by decide) (by decide)⟩

end ConcreteEvaluations

end CoverageIQ
